import Mathlib

/-!
Verification of the Hurl-to-Bruno test-format converter.

The converter is a line-oriented parser (`parseLines` / `step`), a
value/assertion translator (`transformValue`, `assertToJs`), a generator
(`generateBruFile`, `genWrites`) and a consistency checker (`checkModeRun`)
over an abstract file-system model (association list from component paths to
file contents).  All string processing is done on `List Char` so that every
definition evaluates by kernel reduction.
-/

namespace HurlBruno

/-- Whitespace test used for trimming, mirroring the source's regex `\s`. -/
def isWsChar (c : Char) : Bool := c = ' ' || c = '\t' || c = '\r' || c = '\n'

/-- The `{` character. -/
def braceL : Char := Char.ofNat 123

/-- The `}` character. -/
def braceR : Char := Char.ofNat 125

/-- Trim whitespace from both ends of a character list. -/
def trimChars (cs : List Char) : List Char :=
  ((cs.dropWhile isWsChar).reverse.dropWhile isWsChar).reverse

/-- `String.trim` of the source. -/
def strTrim (s : String) : String := String.mk (trimChars s.data)

/-- Decidable character-list prefix test. -/
def isPrefixCh : List Char → List Char → Bool
  | [], _ => true
  | _ :: _, [] => false
  | a :: as, b :: bs => a = b && isPrefixCh as bs

/-- `String.startsWith` of the source. -/
def strStarts (s p : String) : Bool := isPrefixCh p.data s.data

/-- `String.endsWith` of the source. -/
def strEnds (s p : String) : Bool := isPrefixCh p.data.reverse s.data.reverse

/-- Digit character test (regex `\d`). -/
def isDigitCh (c : Char) : Bool := 48 ≤ c.toNat && c.toNat ≤ 57

/-- Word-character test (regex `\w`, i.e. `[A-Za-z0-9_]`). -/
def isWordCh (c : Char) : Bool := c.isAlpha || isDigitCh c || c = '_'

/-- Characters allowed in a header name after the first (regex `[\w-]`). -/
def isHdrCh (c : Char) : Bool := isWordCh c || c = '-'

/-- Decimal value of a digit string (the source's `parseInt(m, 10)`). -/
def natOfDigits (ds : List Char) : Nat :=
  ds.foldl (fun n c => n * 10 + (c.toNat - 48)) 0

/-- Split a character list at a separator character (JS `String.split`). -/
def splitOnCh (sep : Char) : List Char → List (List Char)
  | [] => [[]]
  | c :: cs =>
    let r := splitOnCh sep cs
    if c = sep then [] :: r
    else
      match r with
      | h :: t => (c :: h) :: t
      | [] => [[c]]

/-- Split file content into lines (the source's `split("\n")`). -/
def splitLines (content : String) : List String :=
  (splitOnCh '\n' content.data).map String.mk

/-- Join strings with a separator (JS `Array.join`). -/
def joinWith (sep : String) : List String → String
  | [] => ""
  | [x] => x
  | x :: y :: t => x ++ sep ++ joinWith sep (y :: t)

/-- Join body lines with newlines (the source's `bodyLines.join("\n")`). -/
def joinLines (ls : List String) : String := joinWith "\n" ls

/-- One request record extracted from a Hurl file (the parser's `current`
object). -/
structure HurlRequest where
  comment : Option String
  method : Option String
  url : Option String
  headers : List (String × String)
  body : Option String
  statusCode : Option Nat
  asserts : List String
  captures : List (String × String)
deriving DecidableEq

/-- A freshly created record with a given comment tag. -/
def emptyRequest (c : Option String) : HurlRequest :=
  ⟨c, none, none, [], none, none, [], []⟩

/-- The parser's line-classification states. -/
inductive PState
  | IDLE
  | HEADERS
  | BODY
  | RESPONSE
  | ASSERTS
  | CAPTURES
deriving DecidableEq

/-- The complete mutable state of the `parseHurlFile` loop. -/
structure ParserState where
  requests : List HurlRequest
  current : Option HurlRequest
  state : PState
  bodyLines : List String
  braceDepth : Int
deriving DecidableEq

/-- Initial loop state. -/
def initState : ParserState := ⟨[], none, .IDLE, [], 0⟩

/-- The source's `finishBody`: attach accumulated body lines to the open
record, when a record is open and lines were accumulated. -/
def finishBodyState (s : ParserState) : ParserState :=
  match s.current with
  | some c =>
    if s.bodyLines = [] then s
    else
      { s with current := some { c with body := some (joinLines s.bodyLines) },
               bodyLines := [], braceDepth := 0 }
  | none => s

/-- The source's `pushCurrent`: finalize the open record, keeping it only if
it acquired a method. -/
def pushCurrentState (s : ParserState) : ParserState :=
  match s.current with
  | none => s
  | some _ =>
    let s1 := finishBodyState s
    match s1.current with
    | some c =>
      if c.method.isSome then { s1 with requests := s1.requests ++ [c], current := none }
      else { s1 with current := none }
    | none => { s1 with current := none }

/-- Strip the leading `#` and following whitespace from a comment line
(the source's `replace(/^#\s*/, "")`). -/
def commentText (t : String) : String :=
  String.mk ((t.data.drop 1).dropWhile isWsChar)

/-- Match one HTTP verb at the start of a trimmed line; returns the rest
after the separating whitespace. -/
def verbRest (v : List Char) (t : List Char) : Option String :=
  if isPrefixCh v t then
    match t.drop v.length with
    | [] => none
    | c :: cs =>
      if isWsChar c then
        let u := (c :: cs).dropWhile isWsChar
        if u = [] then none else some (String.mk u)
      else none
  else none

/-- The source's method-line regex `^(GET|POST|PUT|DELETE|PATCH)\s+(.+)$`. -/
def methodMatch (t : String) : Option (String × String) :=
  match verbRest "GET".data t.data with
  | some u => some ("GET", u)
  | none =>
    match verbRest "POST".data t.data with
    | some u => some ("POST", u)
    | none =>
      match verbRest "PUT".data t.data with
      | some u => some ("PUT", u)
      | none =>
        match verbRest "DELETE".data t.data with
        | some u => some ("DELETE", u)
        | none =>
          match verbRest "PATCH".data t.data with
          | some u => some ("PATCH", u)
          | none => none

/-- The source's header-line regex `^([A-Za-z][\w-]*)\s*:\s*(.+)$`. -/
def headerMatch (t : String) : Option (String × String) :=
  match t.data with
  | [] => none
  | c :: cs =>
    if c.isAlpha then
      let key := c :: cs.takeWhile isHdrCh
      let r1 := (cs.dropWhile isHdrCh).dropWhile isWsChar
      match r1 with
      | ':' :: r2 =>
        let v := r2.dropWhile isWsChar
        if v = [] then none else some (String.mk key, String.mk v)
      | _ => none
    else none

/-- The source's status-line regex `^HTTP\s+(\d+)$`. -/
def statusMatch (t : String) : Option Nat :=
  if isPrefixCh "HTTP".data t.data then
    match t.data.drop 4 with
    | [] => none
    | c :: cs =>
      if isWsChar c then
        let ds := (c :: cs).dropWhile isWsChar
        if ds ≠ [] ∧ ds.all isDigitCh then some (natOfDigits ds) else none
      else none
  else none

/-- The source's capture-line regex `^(\w+)\s*:\s*jsonpath\s+"(.+)"$`. -/
def captureMatch (t : String) : Option (String × String) :=
  let cs := t.data
  let w := cs.takeWhile isWordCh
  if w = [] then none
  else
    match (cs.dropWhile isWordCh).dropWhile isWsChar with
    | ':' :: r2 =>
      let r3 := r2.dropWhile isWsChar
      if isPrefixCh "jsonpath".data r3 then
        match r3.drop 8 with
        | [] => none
        | c :: cs2 =>
          if isWsChar c then
            match (c :: cs2).dropWhile isWsChar with
            | '"' :: r5 =>
              if 2 ≤ r5.length ∧ r5.getLast? = some '"' then
                some (String.mk w, String.mk r5.dropLast)
              else none
            | _ => none
          else none
      else none
    | _ => none

/-- JS object assignment `headers[key] = value`: overwrite in place, append
if new. -/
def setHeaderAssoc : List (String × String) → String → String → List (String × String)
  | [], k, v => [(k, v)]
  | (a, b) :: t, k, v => if a = k then (a, v) :: t else (a, b) :: setHeaderAssoc t k v

/-- Net brace count of a trimmed line (the source's character loop over
`{` / `}`). -/
def braceTally (t : String) : Int :=
  t.data.foldl (fun d c => if c = braceL then d + 1 else if c = braceR then d - 1 else d) 0

/-- Error produced when the source dereferences `current` while it is
`null` (a thrown `TypeError`). -/
def nullErr : String := "TypeError: Cannot read properties of null"

/-- The string consisting of a single opening brace. -/
def braceStr : String := String.mk [braceL]

/-- Tail of the line classifier: body-start, status line, section headers,
captures and asserts, in the source's priority order. -/
def stepTail (s : ParserState) (line trimmed : String) : Except String ParserState :=
  if trimmed = braceStr ∧ (s.state = .HEADERS ∨ s.state = .IDLE) then
    .ok { s with state := .BODY, bodyLines := [line], braceDepth := 1 }
  else
    match statusMatch trimmed with
    | some n =>
      match s.current with
      | none => .error nullErr
      | some c => .ok { s with current := some { c with statusCode := some n }, state := .RESPONSE }
    | none =>
      if trimmed = "[Asserts]" then .ok { s with state := .ASSERTS }
      else if trimmed = "[Captures]" then .ok { s with state := .CAPTURES }
      else if s.state = .CAPTURES then
        match captureMatch trimmed with
        | some nv =>
          match s.current with
          | none => .error nullErr
          | some c => .ok { s with current := some { c with captures := c.captures ++ [nv] } }
        | none => .ok s
      else if s.state = .ASSERTS then
        match s.current with
        | none => .error nullErr
        | some c => .ok { s with current := some { c with asserts := c.asserts ++ [trimmed] } }
      else .ok s

/-- Process one line of a Hurl file, mirroring the classification order of
the source's loop: blank, body content, comment, method, header, then
`stepTail`. -/
def step (s : ParserState) (line : String) : Except String ParserState :=
  let trimmed := strTrim line
  if trimmed = "" then
    if s.state = .BODY then .ok { s with bodyLines := s.bodyLines ++ [line] }
    else .ok s
  else if s.state = .BODY then
    let d := s.braceDepth + braceTally trimmed
    if d = 0 then
      .ok { (finishBodyState { s with bodyLines := s.bodyLines ++ [line], braceDepth := d }) with
              state := .IDLE, braceDepth := 0 }
    else .ok { s with bodyLines := s.bodyLines ++ [line], braceDepth := d }
  else if strStarts trimmed "#" then
    let s1 := pushCurrentState s
    .ok { s1 with current := some (emptyRequest (some (commentText trimmed))), state := .IDLE }
  else
    match methodMatch trimmed with
    | some mu =>
      let s1 :=
        match s.current with
        | some c =>
          if c.method.isSome then
            { (pushCurrentState s) with current := some (emptyRequest none) }
          else s
        | none => { s with current := some (emptyRequest none) }
      match s1.current with
      | none => .error nullErr
      | some c =>
        .ok { s1 with current := some { c with method := some mu.1, url := some mu.2 },
                      state := .HEADERS }
    | none =>
      if s.state = .HEADERS then
        match headerMatch trimmed with
        | some kv =>
          match s.current with
          | none => .error nullErr
          | some c => .ok { s with current := some { c with headers := setHeaderAssoc c.headers kv.1 kv.2 } }
        | none => stepTail s line trimmed
      else stepTail s line trimmed

/-- Run the classifier over all lines. -/
def runLines (s : ParserState) : List String → Except String ParserState
  | [] => .ok s
  | l :: ls =>
    match step s l with
    | .error e => .error e
    | .ok s' => runLines s' ls

/-- The source's `parseHurlFile` on a pre-split list of lines. -/
def parseLines (lines : List String) : Except String (List HurlRequest) :=
  match runLines initState lines with
  | .error e => .error e
  | .ok st => .ok (pushCurrentState st).requests

/-- `parseHurlFile` on raw file content. -/
def parseHurlFile (content : String) : Except String (List HurlRequest) :=
  parseLines (splitLines content)

/-- Whether an `Except` result is a success. -/
def exceptOk : Except String (List HurlRequest) → Bool
  | .ok _ => true
  | .error _ => false

/-! ## Value translation (`transformValue`) -/

/-- Result of `transformValue`: a target-format expression plus the flags
the source attaches (`isNull` / `isLiteral`). -/
structure TValue where
  expr : String
  isNull : Bool
  isLiteral : Bool
deriving DecidableEq

/-- Regex `^-?\d+$`. -/
def isIntTok (s : String) : Bool :=
  match s.data with
  | '-' :: ds => ds ≠ [] && ds.all isDigitCh
  | ds => ds ≠ [] && ds.all isDigitCh

/-- Tail of the decimal regex: `\d+\.\d+`. -/
def decTail (ds : List Char) : Bool :=
  let a := ds.takeWhile isDigitCh
  a ≠ [] &&
    match ds.drop a.length with
    | '.' :: b => b ≠ [] && b.all isDigitCh
    | _ => false

/-- Regex `^-?\d+\.\d+$`. -/
def isDecTok (s : String) : Bool :=
  match s.data with
  | '-' :: ds => decTail ds
  | ds => decTail ds

/-- Regex `^\{\{(\w+)\}\}$`: a bare template variable; returns its name. -/
def bareVarName (cs : List Char) : Option String :=
  if isPrefixCh [braceL, braceL] cs then
    let mid := cs.drop 2
    let w := mid.takeWhile isWordCh
    if w ≠ [] ∧ mid.drop w.length = [braceR, braceR] then some (String.mk w) else none
  else none

/-- Build the target variable-lookup expression for a variable name. -/
def getVarStr (n : String) : String := "bru.getVar(\"" ++ n ++ "\")"

/-- Index of the first occurrence of the two-character pattern `ab`
(JS `indexOf`). -/
def findSub2 (a b : Char) : List Char → Option Nat
  | [] => none
  | [_] => none
  | c :: d :: t =>
    if c = a ∧ d = b then some 0
    else (findSub2 a b (d :: t)).map (· + 1)

/-- Quote a literal fragment for the concatenation expression. -/
def quoteLit (cs : List Char) : String := String.mk ('"' :: cs ++ ['"'])

/-- Fueled version of the source's scan loop over a mixed quoted string.
Every iteration strictly shrinks `remaining`, so fuel equal to the length
of the scanned text is never exhausted. -/
def mixedPartsFuel : Nat → List Char → List String
  | _, [] => []
  | 0, _ :: _ => []
  | fuel + 1, remaining =>
    match findSub2 braceL braceL remaining with
    | none => [quoteLit remaining]
    | some varIdx =>
      let pre := if 0 < varIdx then [quoteLit (remaining.take varIdx)] else []
      match (findSub2 braceR braceR (remaining.drop varIdx)).map (· + varIdx) with
      | some endIdx =>
        pre ++ [getVarStr (String.mk ((remaining.drop (varIdx + 2)).take (endIdx - (varIdx + 2))))]
          ++ mixedPartsFuel fuel (remaining.drop (endIdx + 2))
      | none =>
        pre ++ [getVarStr (String.mk ((remaining.drop (varIdx + 2)).dropLast))]
          ++ mixedPartsFuel fuel (remaining.drop 1)

/-- The source's scan loop building the literal/variable concatenation for a
mixed quoted string, including its behaviour on an unterminated `{{`
(JS `slice` with a `-1` index). -/
def mixedParts (remaining : List Char) : List String :=
  mixedPartsFuel remaining.length remaining

/-- The source's quoted-string test `startsWith('"') && endsWith('"')`. -/
def quotedShape (s : String) : Bool :=
  match s.data with
  | [] => false
  | c :: cs => c = '"' && (c :: cs).getLast? = some '"'

/-- The source's `transformValue`: classify a raw token as null, boolean,
number, bare variable, quoted pure variable, mixed quoted string, or plain
literal passthrough. -/
def transformValue (rawValue : String) : TValue :=
  if rawValue = "null" then ⟨"null", true, false⟩
  else if rawValue = "true" then ⟨"true", false, true⟩
  else if rawValue = "false" then ⟨"false", false, true⟩
  else if isIntTok rawValue then ⟨rawValue, false, true⟩
  else if isDecTok rawValue then ⟨rawValue, false, true⟩
  else
    match bareVarName rawValue.data with
    | some n => ⟨getVarStr n, false, true⟩
    | none =>
      if quotedShape rawValue then
        let inner := (rawValue.data.drop 1).dropLast
        match bareVarName inner with
        | some n => ⟨getVarStr n, false, true⟩
        | none =>
          if (findSub2 braceL braceL inner).isSome then
            ⟨joinWith " + " (mixedParts inner), false, true⟩
          else ⟨rawValue, false, true⟩
      else ⟨rawValue, false, true⟩

/-! ## Assertion translation (`assertToJs`) -/

/-- Strip a leading `$.` from a jsonpath. -/
def stripDollar (jp : String) : String :=
  if isPrefixCh "$.".data jp.data then String.mk (jp.data.drop 2) else jp

/-- The source's `jsonpathToJs`: rewrite a jsonpath to a response-body
member expression. -/
def jsonpathToJs (jp : String) : String := "res.body." ++ stripDollar jp

/-- Index of the last occurrence of a character (JS `lastIndexOf`). -/
def lastIdxOf (ch : Char) : List Char → Option Nat
  | [] => none
  | c :: cs =>
    match lastIdxOf ch cs with
    | some i => some (i + 1)
    | none => if c = ch then some 0 else none

/-- The source's `jsonpathToPropertyCheck`: split a jsonpath into parent
member expression and final property name. -/
def jsonpathToPropertyCheck (jp : String) : String × String :=
  let p := if isPrefixCh "$.".data jp.data then jp.data.drop 2 else jp.data
  match lastIdxOf '.' p with
  | none => ("res.body", String.mk p)
  | some i => ("res.body." ++ String.mk (p.take i), String.mk (p.drop (i + 1)))

/-- The source's assert-line regex `^jsonpath\s+"([^"]+)"\s+(.+)$`, with the
rest already trimmed as the source does immediately after matching. -/
def jpMatch (line : String) : Option (String × String) :=
  let cs := line.data
  if isPrefixCh "jsonpath".data cs then
    match cs.drop 8 with
    | [] => none
    | c :: r =>
      if isWsChar c then
        match (c :: r).dropWhile isWsChar with
        | '"' :: r2 =>
          let p := r2.takeWhile (fun x => x ≠ '"')
          if p = [] then none
          else
            match r2.drop p.length with
            | '"' :: c2 :: r3 =>
              if isWsChar c2 ∧ r3 ≠ [] then
                some (String.mk p, strTrim (String.mk ((c2 :: r3).dropWhile isWsChar)))
              else none
            | _ => none
        | _ => none
      else none
  else none

/-- Regex `^(==|>=)\s+(.+)$` with the value trimmed as the source does. -/
def parseOpVal (cs : List Char) : Option (String × String) :=
  let opc : Option (String × List Char) :=
    if isPrefixCh "==".data cs then some ("==", cs.drop 2)
    else if isPrefixCh ">=".data cs then some (">=", cs.drop 2)
    else none
  match opc with
  | none => none
  | some (op, r) =>
    match r with
    | [] => none
    | c :: r2 =>
      if isWsChar c then
        let v := (c :: r2).dropWhile isWsChar
        if v = [] then none else some (op, strTrim (String.mk v))
      else none

/-- Regex `^count\s+(==|>=)\s+(.+)$`. -/
def countMatch (rest : String) : Option (String × String) :=
  if isPrefixCh "count".data rest.data then
    match rest.data.drop 5 with
    | [] => none
    | c :: r => if isWsChar c then parseOpVal ((c :: r).dropWhile isWsChar) else none
  else none

/-- Regex `^contains\s+(.+)$` with the value trimmed as the source does. -/
def containsMatch (rest : String) : Option String :=
  if isPrefixCh "contains".data rest.data then
    match rest.data.drop 8 with
    | [] => none
    | c :: r =>
      if isWsChar c then
        let v := (c :: r).dropWhile isWsChar
        if v = [] then none else some (strTrim (String.mk v))
      else none
  else none

/-- Regex `^matches\s+"([^"]*)"$`. -/
def matchesMatch (rest : String) : Option String :=
  if isPrefixCh "matches".data rest.data then
    match rest.data.drop 7 with
    | [] => none
    | c :: r =>
      if isWsChar c then
        match (c :: r).dropWhile isWsChar with
        | '"' :: r2 =>
          let b := r2.takeWhile (fun x => x ≠ '"')
          if r2.drop b.length = ['"'] then some (String.mk b) else none
        | _ => none
      else none
  else none

/-- The inert comment the source emits for an unrecognized predicate. -/
def assertUnhandled (line : String) : String := "// UNHANDLED ASSERT: " ++ line

/-- Predicate translation after the `count` check, in the source's order:
`not exists`, `not isEmpty`, `isString`, `isInteger`, `isCollection`,
`contains`, `matches`, then `==`/`>=`, then the unhandled-assert comment. -/
def assertAfterCount (jp rest line : String) : String :=
  if rest = "not exists" then
    let pc := jsonpathToPropertyCheck jp
    "expect(" ++ pc.1 ++ ").to.not.have.property(\"" ++ pc.2 ++ "\");"
  else if rest = "not isEmpty" then
    "expect(" ++ jsonpathToJs jp ++ ").to.not.eql(\"\");"
  else if rest = "isString" then
    "expect(typeof " ++ jsonpathToJs jp ++ ").to.eql(\"string\");"
  else if rest = "isInteger" then
    "expect(Number.isInteger(" ++ jsonpathToJs jp ++ ")).to.eql(true);"
  else if rest = "isCollection" then
    "expect(Array.isArray(" ++ jsonpathToJs jp ++ ")).to.eql(true);"
  else
    match containsMatch rest with
    | some rawVal =>
      "expect(" ++ jsonpathToJs jp ++ ").to.include(" ++ (transformValue rawVal).expr ++ ");"
    | none =>
      match matchesMatch rest with
      | some rx => "expect(" ++ jsonpathToJs jp ++ ").to.match(/" ++ rx ++ "/);"
      | none =>
        match parseOpVal rest.data with
        | some (op, rawVal) =>
          let v := transformValue rawVal
          if op = "==" then
            if v.isNull then "expect(" ++ jsonpathToJs jp ++ ").to.be.null;"
            else "expect(" ++ jsonpathToJs jp ++ ").to.eql(" ++ v.expr ++ ");"
          else if op = ">=" then
            "expect(" ++ jsonpathToJs jp ++ ").to.be.at.least(" ++ v.expr ++ ");"
          else assertUnhandled line
        | none => assertUnhandled line

/-- Translate the predicate part of a matched assert line, starting with
the `count` forms as the source does. -/
def assertBody (jp rest line : String) : String :=
  match countMatch rest with
  | some opv =>
    if opv.1 = "==" then
      "expect(" ++ jsonpathToJs jp ++ ".length).to.eql(" ++ (transformValue opv.2).expr ++ ");"
    else if opv.1 = ">=" then
      "expect(" ++ jsonpathToJs jp ++ ".length).to.be.at.least(" ++ (transformValue opv.2).expr ++ ");"
    else assertAfterCount jp rest line
  | none => assertAfterCount jp rest line

/-- The source's `assertToJs`: `none` exactly when the line does not match
the jsonpath assert shape (the source returns `null` there). -/
def assertToJs (line : String) : Option String :=
  match jpMatch line with
  | none => none
  | some jr => some (assertBody jr.1 jr.2 line)

/-- The generator's assert emission loop: translate each stored assert line,
keeping only non-null results. -/
def assertScripts (asserts : List String) : List String :=
  asserts.filterMap assertToJs

/-! ## Generator (`generateBruFile`, naming, collection writes) -/

/-- Fueled decimal-digit computation; fuel `n + 1` always suffices since
the value shrinks by a factor of ten each step. -/
def natDigitsFuel : Nat → Nat → List Char
  | 0, _ => []
  | fuel + 1, n =>
    if n < 10 then [Char.ofNat (48 + n)]
    else natDigitsFuel fuel (n / 10) ++ [Char.ofNat (48 + n % 10)]

/-- Decimal digits of a natural number. -/
def natDigits (n : Nat) : List Char := natDigitsFuel (n + 1) n

/-- Decimal string of a natural number. -/
def natStr (n : Nat) : String := String.mk (natDigits n)

/-- ASCII lower-casing of one character. -/
def toLowerCh (c : Char) : Char :=
  if 65 ≤ c.toNat ∧ c.toNat ≤ 90 then Char.ofNat (c.toNat + 32) else c

/-- JS `toLowerCase` on the strings the converter produces. -/
def strLower (s : String) : String := String.mk (s.data.map toLowerCh)

/-- Characters kept by the slug regex: `[a-z0-9]` (after lower-casing). -/
def isSlugCh (c : Char) : Bool := (97 ≤ c.toNat && c.toNat ≤ 122) || isDigitCh c

/-- Helper for run collapsing: `inRun` records whether the previous
character was part of a non-slug run already replaced by a dash. -/
def collapseRunsAux (inRun : Bool) : List Char → List Char
  | [] => []
  | c :: cs =>
    if isSlugCh c then c :: collapseRunsAux false cs
    else if inRun then collapseRunsAux true cs
    else '-' :: collapseRunsAux true cs

/-- Collapse each maximal run of non-slug characters to a single `-`
(the source's `replace(/[^a-z0-9]+/g, "-")`). -/
def collapseRuns (l : List Char) : List Char := collapseRunsAux false l

/-- Remove one leading dash (the `^-` alternative of the trimming regex). -/
def dropLeadDash : List Char → List Char
  | '-' :: t => t
  | l => l

/-- Remove one trailing dash (the `-$` alternative of the trimming regex). -/
def dropTrailDash (l : List Char) : List Char :=
  if l.getLast? = some '-' then l.dropLast else l

/-- The source's `slugify`. -/
def slugify (s : String) : String :=
  String.mk (dropTrailDash (dropLeadDash (collapseRuns (s.data.map toLowerCh))))

/-- Does a string end with the given suffix. -/
def hasSuffix (s suf : String) : Bool := isPrefixCh suf.data.reverse s.data.reverse

/-- The source's `folderName`: strip the `.hurl` extension and turn
underscores into hyphens. -/
def folderName (filename : String) : String :=
  let base :=
    if hasSuffix filename ".hurl" then filename.data.take (filename.data.length - 5)
    else filename.data
  String.mk (base.map (fun c => if c = '_' then '-' else c))

/-- JS `url.split("/").pop()`. -/
def lastSegment (s : String) : String :=
  match (splitOnCh '/' s.data).getLast? with
  | some l => String.mk l
  | none => ""

/-- JS `seg.split("?")[0]`. -/
def beforeQ (s : String) : String :=
  match splitOnCh '?' s.data with
  | h :: _ => String.mk h
  | [] => ""

/-- JS `String(n).padStart(2, "0")`. -/
def padStart2 (s : String) : String := if s.data.length < 2 then "0" ++ s else s

/-- The method-and-path fallback slug used when a record has no comment. -/
def fallbackSlug (r : HurlRequest) : String :=
  let url := r.url.getD ""
  let pe := beforeQ (lastSegment url)
  let pathEnd := if pe = "" then "request" else pe
  slugify ((r.method.getD "") ++ "-" ++ pathEnd)

/-- The source's `fileName`: `<2-digit index>-<slug>.bru`. -/
def fileName (r : HurlRequest) (index : Nat) : String :=
  let nn := padStart2 (natStr (index + 1))
  let slug :=
    match r.comment with
    | some c => if c ≠ "" then slugify c else fallbackSlug r
    | none => fallbackSlug r
  nn ++ "-" ++ slug ++ ".bru"

/-- Re-indent a stored body so closing braces never sit at column zero. -/
def indentBody (b : String) : String :=
  joinWith "\n" ((splitLines b).map (fun l => if strTrim l ≠ "" then "  " ++ l else l))

/-- Strip a leading `$.` from a capture jsonpath (inline in the source's
capture loop). -/
def captureDotpath (jp : String) : String :=
  if isPrefixCh "$.".data jp.data then String.mk (jp.data.drop 2) else jp

/-- The source's `generateBruFile`: serialize one request record at a
1-based sequence position. -/
def generateBruFile (r : HurlRequest) (seq : Nat) : String :=
  let method := r.method.getD ""
  let url := r.url.getD ""
  let name :=
    match r.comment with
    | some c => if c ≠ "" then c else method ++ " " ++ lastSegment url
    | none => method ++ " " ++ lastSegment url
  let metaSec := "meta \x7b\n  name: " ++ name ++ "\n  type: http\n  seq: " ++ natStr seq ++ "\n\x7d"
  let hasBody := r.body.isSome
  let reqSec := strLower method ++ " \x7b\n  url: " ++ url ++ "\n  body: " ++
    (if hasBody then "json" else "none") ++ "\n  auth: none\n\x7d"
  let secs1 := [metaSec, reqSec]
  let secs2 := secs1 ++
    (if r.headers ≠ [] then
      ["headers \x7b\n" ++ joinWith "\n" (r.headers.map (fun kv => "  " ++ kv.1 ++ ": " ++ kv.2)) ++ "\n\x7d"]
     else [])
  let secs3 := secs2 ++
    (match r.body with
     | some b => ["body:json \x7b\n" ++ indentBody b ++ "\n\x7d"]
     | none => [])
  let secs4 := secs3 ++
    (match r.statusCode with
     | some n => ["assert \x7b\n  res.status: eq " ++ natStr n ++ "\n\x7d"]
     | none => [])
  let scriptLines :=
    r.captures.map (fun cap => "bru.setVar(\"" ++ cap.1 ++ "\", res.body." ++ captureDotpath cap.2 ++ ");")
      ++ assertScripts r.asserts
  let secs5 := secs4 ++
    (if scriptLines ≠ [] then
      ["script:post-response \x7b\n" ++ joinWith "\n" (scriptLines.map (fun l => "  " ++ l)) ++ "\n\x7d"]
     else [])
  joinWith "\n\n" secs5 ++ "\n"

/-! ## Collection generation over an abstract file system -/

/-- A path as a list of components. -/
abbrev FPath := List String

/-- A file system: an association list from paths to file contents, where
the first matching entry shadows later ones (writes cons new entries). -/
abbrev FS := List (FPath × String)

/-- Content of the generated `bruno.json`. -/
def brunoJsonContent : String :=
  "\x7b\n  \"version\": \"1\",\n  \"name\": \"RealWorld API\",\n  \"type\": \"collection\"\n\x7d\n"

/-- Content of the generated `collection.bru` (shared pre-request script). -/
def collectionBruContent : String :=
  "script:pre-request \x7b\n  if (!bru.getVar(\"uid\")) \x7b\n    bru.setVar(\"uid\", Date.now().toString() + Math.random().toString(36).substring(2, 6));\n  \x7d\n\x7d\n"

/-- Content of the generated `environments/local.bru`. -/
def localBruContent : String :=
  "vars \x7b\n  host: http://localhost:3000\n\x7d\n"

/-- The three shared scaffolding files, written once per regeneration. -/
def scaffoldWrites : List (FPath × String) :=
  [ (["bruno.json"], brunoJsonContent),
    (["collection.bru"], collectionBruContent),
    (["environments", "local.bru"], localBruContent) ]

/-- Files written for one parsed Hurl file. -/
def perFileWrites (folder : String) (rs : List HurlRequest) : List (FPath × String) :=
  rs.enum.map (fun ir => ([folder, fileName ir.2 ir.1], generateBruFile ir.2 (ir.1 + 1)))

/-- Lexicographic comparison of character lists by code point. -/
def strLeCh : List Char → List Char → Bool
  | [], _ => true
  | _ :: _, [] => false
  | a :: as, b :: bs =>
    if a.toNat < b.toNat then true
    else if b.toNat < a.toNat then false
    else strLeCh as bs

/-- Lexicographic string comparison (JS default array sort on strings). -/
def strLe (a b : String) : Bool := strLeCh a.data b.data

/-- Insertion step of a stable sort of named files. -/
def insertByName (x : String × String) : List (String × String) → List (String × String)
  | [] => [x]
  | y :: t => if strLe x.1 y.1 then x :: y :: t else y :: insertByName x t

/-- Sort source files by name (the source's `.sort()` on file names). -/
def sortByName : List (String × String) → List (String × String)
  | [] => []
  | x :: t => insertByName x (sortByName t)

/-- Relative writes for the listed Hurl files in order; `false` when a
parse error aborts generation, leaving only the writes made so far. -/
def genFileWrites : List (String × String) → List (FPath × String) × Bool
  | [] => ([], true)
  | (nm, content) :: rest =>
    match parseHurlFile content with
    | .error _ => ([], false)
    | .ok rs =>
      let mine := perFileWrites (folderName nm) rs
      let more := genFileWrites rest
      (mine ++ more.1, more.2)

/-- All relative writes of `generateCollection`: scaffolding, then one
folder per `.hurl` source file in sorted order. -/
def genWrites (src : List (String × String)) : List (FPath × String) × Bool :=
  let files := sortByName (src.filter (fun e => hasSuffix e.1 ".hurl"))
  let fw := genFileWrites files
  (scaffoldWrites ++ fw.1, fw.2)

/-- Decidable path prefix test. -/
def isPrefixList : FPath → FPath → Bool
  | [], _ => true
  | _ :: _, [] => false
  | a :: as, b :: bs => a = b && isPrefixList as bs

/-- Subtree of the file system under a directory. -/
def treeUnder (fs : FS) (d : FPath) : FS := fs.filter (fun e => isPrefixList d e.1)

/-- `rmSync(dir, {recursive: true})` on the model. -/
def rmTree (fs : FS) (d : FPath) : FS := fs.filter (fun e => ! isPrefixList d e.1)

/-- Apply a list of file writes in order; later writes shadow earlier
entries (and anything already in the file system). -/
def applyWrites (fs : FS) : List (FPath × String) → FS
  | [] => fs
  | w :: ws => applyWrites (w :: fs) ws

/-- Root writes at an output directory. -/
def underDir (d : FPath) (ws : List (FPath × String)) : List (FPath × String) :=
  ws.map (fun e => (d ++ e.1, e.2))

/-- The committed Bruno collection directory. -/
def brunoDir : FPath := ["api", "bruno"]

/-- Default mode: remove the committed tree and regenerate it from source
(the source's `rmSync(BRUNO_DIR)` followed by `generateCollection`). -/
def regenerate (src : List (String × String)) (fs : FS) : FS :=
  applyWrites (rmTree fs brunoDir) (underDir brunoDir (genWrites src).1)

/-! ## Check mode -/

/-- First-match lookup, the reading semantics of the file-system model. -/
def lookupStr (l : List (String × String)) (k : String) : Option String :=
  match l with
  | [] => none
  | (a, b) :: t => if a = k then some b else lookupStr t k

/-- Helper: keep only the first entry for each key not already seen. -/
def dedupFirstAux (seen : List String) : List (String × String) → List (String × String)
  | [] => []
  | (a, b) :: t =>
    if seen.contains a then dedupFirstAux seen t
    else (a, b) :: dedupFirstAux (a :: seen) t

/-- Keep only the first entry for each key. -/
def dedupFirst (l : List (String × String)) : List (String × String) :=
  dedupFirstAux [] l

/-- The source's `collectFiles`: map each relative joined path under a
directory to the content read there. -/
def collectFiles (fs : FS) (d : FPath) : List (String × String) :=
  dedupFirst ((fs.filter (fun e => isPrefixList d e.1)).map
    (fun e => (joinWith "/" (e.1.drop d.length), e.2)))

/-- Helper for key deduplication with a seen accumulator. -/
def dedupStrsAux (seen : List String) : List String → List String
  | [] => []
  | a :: t =>
    if seen.contains a then dedupStrsAux seen t
    else a :: dedupStrsAux (a :: seen) t

/-- Deduplicate keys preserving first occurrence (JS `Set` semantics). -/
def dedupStrs (l : List String) : List String := dedupStrsAux [] l

/-- Insertion step of the sorted key iteration. -/
def insertStr (x : String) : List String → List String
  | [] => [x]
  | y :: t => if strLe x y then x :: y :: t else y :: insertStr x t

/-- Sort keys lexicographically (the source's `[...allKeys].sort()`). -/
def sortStrs : List String → List String
  | [] => []
  | x :: t => insertStr x (sortStrs t)

/-- The check-mode diff loop: classify every path in the sorted key union
as missing, extra or changed. -/
def computeDiffs (expected actual : List (String × String)) : List String :=
  let keys := sortStrs (dedupStrs (expected.map (fun e => e.1) ++ actual.map (fun e => e.1)))
  keys.foldl (fun acc k =>
    match lookupStr actual k, lookupStr expected k with
    | none, _ => acc ++ ["  missing: " ++ k]
    | some _, none => acc ++ ["  extra:   " ++ k]
    | some av, some ev => if ev ≠ av then acc ++ ["  changed: " ++ k] else acc) []

/-- Outcome of a check-mode run. -/
inductive CheckOutcome
  | upToDate
  | drift
  | crashed
deriving DecidableEq

/-- The source's `checkMode`: regenerate into a scratch directory, diff
against the committed tree, and report.  On the drift path the source calls
`process.exit(1)`, which terminates immediately without running the
`finally` cleanup; on the success path and on a generation exception the
`finally` block removes the scratch directory. -/
def checkModeRun (src : List (String × String)) (fs : FS) (tmpDir : FPath) :
    CheckOutcome × FS :=
  let gw := genWrites src
  let fs1 := applyWrites fs (underDir tmpDir gw.1)
  if gw.2 = false then (.crashed, rmTree fs1 tmpDir)
  else
    let expected := collectFiles fs1 tmpDir
    let actual := collectFiles fs1 brunoDir
    let diffs := computeDiffs expected actual
    if diffs ≠ [] then (.drift, fs1)
    else (.upToDate, rmTree fs1 tmpDir)

/-- The first non-blank line of a file is a comment line or a method line
(the shape of every well-formed Hurl file). -/
def headOk : List String → Bool
  | [] => true
  | l :: ls =>
    if strTrim l = "" then headOk ls
    else strStarts (strTrim l) "#" || (methodMatch (strTrim l)).isSome

/-! ## Theorems -/

/-- C10: the assertion translator maps the three example assertion lines to
the stated target expectations: equality on `res.body.user.username`,
length-at-least-1 on `res.body.tags`, and a no-property check for `body` on
`res.body.article`. -/
theorem c10_assert_translation_examples :
    assertToJs "jsonpath \"$.user.username\" == \"bob\"" =
      some "expect(res.body.user.username).to.eql(\"bob\");" ∧
    assertToJs "jsonpath \"$.tags\" count >= 1" =
      some "expect(res.body.tags.length).to.be.at.least(1);" ∧
    assertToJs "jsonpath \"$.article.body\" not exists" =
      some "expect(res.body.article).to.not.have.property(\"body\");" := by
  refine ⟨by decide, by decide, by decide⟩

/-- C9: the value translator sends `"{{slug}}"` to a pure variable lookup,
`"auth_{{uid}}"` to a concatenation of the literal and the lookup, the bare
token `null` to the null marker, the bare token `42` to the numeric literal,
and passes any token matching none of the recognized shapes through
unchanged as a literal expression. -/
theorem c9_value_translation :
    transformValue "\"\x7b\x7bslug\x7d\x7d\"" = ⟨"bru.getVar(\"slug\")", false, true⟩ ∧
    transformValue "\"auth_\x7b\x7buid\x7d\x7d\"" = ⟨"\"auth_\" + bru.getVar(\"uid\")", false, true⟩ ∧
    transformValue "null" = ⟨"null", true, false⟩ ∧
    transformValue "42" = ⟨"42", false, true⟩ ∧
    (∀ s : String, s ≠ "null" → s ≠ "true" → s ≠ "false" →
      isIntTok s = false → isDecTok s = false →
      bareVarName s.data = none → quotedShape s = false →
      transformValue s = ⟨s, false, true⟩) := by
  refine ⟨by decide, by decide, by decide, by decide, ?_⟩
  intro s h1 h2 h3 h4 h5 h6 h7
  simp [transformValue, h1, h2, h3, h4, h5, h6, h7]

/-- Witness for C9 at the concrete unrecognized token `hello`. -/
theorem c9_value_translation_witness :
    transformValue "hello" = ⟨"hello", false, true⟩ :=
  c9_value_translation.2.2.2.2 "hello" (by decide) (by decide) (by decide)
    (by decide) (by decide) (by decide) (by decide)

/-- Counterexample for C2: the stored assertion line `foo` does not match
the jsonpath-assert shape, so the translator returns `none` and the
emission loop drops it: one stored line, zero emitted statements. -/
theorem c2_counterexample :
    assertScripts ["foo"] = [] ∧ ("foo" :: ([] : List String)).length = 1 := by
  refine ⟨by decide, rfl⟩

/-- C2 (amended): the assertion translator is total and never raises; every
stored line matching the `jsonpath "<path>" <predicate>` shape is emitted
(unrecognized predicates become an inert unhandled-assert comment), while a
line not matching that shape is silently dropped, so the number of emitted
statements equals the number of stored lines matching the shape. -/
theorem c2_assert_emission_count (asserts : List String) :
    (assertScripts asserts).length =
      (asserts.filter (fun l => (jpMatch l).isSome)).length := by
  induction asserts with
  | nil => rfl
  | cons l ls ih =>
    simp only [assertScripts, List.filterMap_cons, List.filter_cons] at *
    cases h : jpMatch l with
    | none => simpa [assertToJs, h] using ih
    | some jr => simpa [assertToJs, h] using ih

/-- Counterexample for C1: an `HTTP <code>` line appearing before any
comment or method line makes the parser dereference the null `current`
record: the run raises instead of ignoring the line. -/
theorem c1_counterexample :
    parseLines ["HTTP 200"] = .error nullErr := rfl

/-! ### File-system lemmas -/

theorem applyWrites_eq (ws : List (FPath × String)) (fs : FS) :
    applyWrites fs ws = ws.reverse ++ fs := by
  induction ws generalizing fs with
  | nil => rfl
  | cons w ws ih => simp [applyWrites, ih]

theorem isPrefixList_self_append (d p : FPath) : isPrefixList d (d ++ p) = true := by
  induction d with
  | nil => rfl
  | cons a as ih => simpa [isPrefixList] using ih

theorem mem_underDir_pre {d : FPath} {ws : List (FPath × String)} {e : FPath × String}
    (he : e ∈ underDir d ws) : isPrefixList d e.1 = true := by
  obtain ⟨x, _, rfl⟩ := List.mem_map.mp he
  exact isPrefixList_self_append d x.1

theorem filter_all_true {p : FPath × String → Bool} {l : FS}
    (h : ∀ e ∈ l, p e = true) : l.filter p = l := by
  induction l with
  | nil => rfl
  | cons x xs ih =>
    rw [List.filter_cons, if_pos (h x (List.mem_cons_self x xs))]
    rw [ih (fun e he => h e (List.mem_cons_of_mem x he))]

theorem filter_all_false {p : FPath × String → Bool} {l : FS}
    (h : ∀ e ∈ l, p e = false) : l.filter p = [] := by
  induction l with
  | nil => rfl
  | cons x xs ih =>
    rw [List.filter_cons]
    simp only [h x (List.mem_cons_self x xs)]
    exact ih (fun e he => h e (List.mem_cons_of_mem x he))

theorem filter_not_cancel (p : FPath × String → Bool) (l : FS) :
    (l.filter (fun e => ! p e)).filter p = [] := by
  induction l with
  | nil => rfl
  | cons x xs ih =>
    cases h : p x <;> simp [List.filter_cons, h, ih]

theorem filter_not_idem (p : FPath × String → Bool) (l : FS) :
    (l.filter (fun e => ! p e)).filter (fun e => ! p e) = l.filter (fun e => ! p e) := by
  induction l with
  | nil => rfl
  | cons x xs ih =>
    cases h : p x <;> simp [List.filter_cons, h, ih]

theorem filter_disj_comm {p q : FPath × String → Bool} (l : FS)
    (h : ∀ e, p e = true → q e = false) :
    (l.filter (fun e => ! q e)).filter p = l.filter p := by
  induction l with
  | nil => rfl
  | cons x xs ih =>
    cases hp : p x
    · cases hq : q x <;> simp [List.filter_cons, hp, hq, ih]
    · have := h x hp
      simp [List.filter_cons, hp, this, ih]

/-- C4: regeneration is deterministic and idempotent: the committed target
subtree after regeneration equals the generated writes regardless of the
prior file-system state, and regenerating twice from the same source gives
a file system identical to regenerating once, scaffolding included. -/
theorem c4_regeneration_idempotent (src : List (String × String)) (fs : FS) :
    treeUnder (regenerate src fs) brunoDir = (underDir brunoDir (genWrites src).1).reverse ∧
    regenerate src (regenerate src fs) = regenerate src fs := by
  have hW : ∀ e ∈ (underDir brunoDir (genWrites src).1).reverse,
      isPrefixList brunoDir e.1 = true := by
    intro e he
    exact mem_underDir_pre (List.mem_reverse.mp he)
  constructor
  · unfold regenerate rmTree treeUnder
    rw [applyWrites_eq, List.filter_append, filter_all_true hW,
        filter_not_cancel (fun e => isPrefixList brunoDir e.1) fs, List.append_nil]
  · unfold regenerate rmTree
    rw [applyWrites_eq, applyWrites_eq, List.filter_append]
    have h1 : (underDir brunoDir (genWrites src).1).reverse.filter
        (fun e => ! isPrefixList brunoDir e.1) = [] := by
      apply filter_all_false
      intro e he
      simp [hW e he]
    rw [h1, List.nil_append,
        filter_not_idem (fun e => isPrefixList brunoDir e.1) fs]

/-- Two prefixes of the same path are comparable. -/
theorem prefix_comparable {a b c : FPath} (ha : isPrefixList a c = true)
    (hb : isPrefixList b c = true) :
    isPrefixList a b = true ∨ isPrefixList b a = true := by
  induction c generalizing a b with
  | nil =>
    cases a with
    | nil => left; rfl
    | cons x xs => simp [isPrefixList] at ha
  | cons x xs ih =>
    cases a with
    | nil => left; rfl
    | cons a1 as =>
      cases b with
      | nil => right; rfl
      | cons b1 bs =>
        simp only [isPrefixList, Bool.and_eq_true, decide_eq_true_eq] at ha hb
        obtain ⟨rfl, ha2⟩ := ha
        obtain ⟨rfl, hb2⟩ := hb
        rcases ih ha2 hb2 with h | h
        · left; simp [isPrefixList, h]
        · right; simp [isPrefixList, h]

/-- C5: check mode never mutates the committed target tree: whatever the
source and committed state, and for any scratch directory disjoint from the
committed tree, the committed subtree after a check-mode run is exactly the
committed subtree before it. -/
theorem c5_check_mode_frame (src : List (String × String)) (fs : FS) (tmpDir : FPath)
    (hb : isPrefixList brunoDir tmpDir = false)
    (ht : isPrefixList tmpDir brunoDir = false) :
    treeUnder (checkModeRun src fs tmpDir).2 brunoDir = treeUnder fs brunoDir := by
  have hdisj : ∀ p : FPath, isPrefixList brunoDir p = true →
      isPrefixList tmpDir p = false := by
    intro p hp
    cases htp : isPrefixList tmpDir p
    · rfl
    · rcases prefix_comparable hp htp with h | h
      · rw [h] at hb; exact absurd hb (by simp)
      · rw [h] at ht; exact absurd ht (by simp)
  have hWno : ∀ e ∈ (underDir tmpDir (genWrites src).1).reverse,
      isPrefixList brunoDir e.1 = false := by
    intro e he
    have hpre := mem_underDir_pre (List.mem_reverse.mp he)
    cases hbp : isPrefixList brunoDir e.1
    · rfl
    · have := hdisj e.1 hbp
      rw [hpre] at this
      exact absurd this (by simp)
  have hfs1 : treeUnder (applyWrites fs (underDir tmpDir (genWrites src).1)) brunoDir =
      treeUnder fs brunoDir := by
    unfold treeUnder
    rw [applyWrites_eq, List.filter_append, filter_all_false hWno, List.nil_append]
  have hrm : treeUnder (rmTree (applyWrites fs (underDir tmpDir (genWrites src).1)) tmpDir)
      brunoDir = treeUnder fs brunoDir := by
    unfold treeUnder rmTree
    rw [filter_disj_comm _ (fun e he => hdisj e.1 he)]
    exact hfs1
  unfold checkModeRun
  dsimp only
  split
  · exact hrm
  · split
    · exact hfs1
    · exact hrm

/-- Witness for C5 at a concrete committed file and scratch directory. -/
theorem c5_check_mode_frame_witness :
    treeUnder (checkModeRun [] [(["api", "bruno", "x.bru"], "old")] ["tmp", "scratch"]).2
        brunoDir =
      treeUnder [(["api", "bruno", "x.bru"], "old")] brunoDir :=
  c5_check_mode_frame [] [(["api", "bruno", "x.bru"], "old")] ["tmp", "scratch"]
    (by decide) (by decide)

/-- C3: on the drift exit path the check terminates through the immediate
process-exit call, which skips the `finally` cleanup: with one source file
and an empty committed tree the run reports drift, yet the scratch
directory still holds the regenerated files afterwards.  The claim that the
scratch location is removed on every exit path fails on this path. -/
theorem c3_scratch_left_on_drift :
    (checkModeRun [("smoke_test.hurl", "# Ping\nGET http://localhost:3000/api/ping\nHTTP 200\n")]
        [] ["tmp", "bruno-check"]).1 = CheckOutcome.drift ∧
    treeUnder (checkModeRun
        [("smoke_test.hurl", "# Ping\nGET http://localhost:3000/api/ping\nHTTP 200\n")]
        [] ["tmp", "bruno-check"]).2 ["tmp", "bruno-check"] ≠ [] := by
  refine ⟨rfl, by decide⟩

/-! ### Parser lemmas -/

theorem verbRest_head {a : Char} {v cs : List Char} {u : String}
    (h : verbRest (a :: v) cs = some u) : ∃ t, cs = a :: t := by
  unfold verbRest at h
  split at h
  case isTrue hp =>
    cases cs with
    | nil => simp [isPrefixCh] at hp
    | cons b bs =>
      simp only [isPrefixCh, Bool.and_eq_true, decide_eq_true_eq] at hp
      exact ⟨bs, by rw [hp.1]⟩
  case isFalse => exact absurd h (by simp)

theorem methodMatch_facts {t : String} {mu : String × String}
    (h : methodMatch t = some mu) : t ≠ "" ∧ strStarts t "#" = false := by
  have key : ∀ (a : Char) (v : List Char) (u : String),
      verbRest (a :: v) t.data = some u → a ≠ '#' →
      t ≠ "" ∧ strStarts t "#" = false := by
    intro a v u hv ha
    obtain ⟨tl, htl⟩ := verbRest_head hv
    refine ⟨?_, ?_⟩
    · intro he
      rw [he] at htl
      exact absurd htl (by simp [show ("" : String).data = [] from rfl])
    · show isPrefixCh "#".data t.data = false
      rw [show "#".data = ['#'] from rfl, htl]
      simp only [isPrefixCh]
      simp [Ne.symm ha]
  rw [methodMatch,
      show "GET".data = 'G' :: "ET".data from rfl,
      show "POST".data = 'P' :: "OST".data from rfl,
      show "PUT".data = 'P' :: "UT".data from rfl,
      show "DELETE".data = 'D' :: "ELETE".data from rfl,
      show "PATCH".data = 'P' :: "ATCH".data from rfl] at h
  cases h1 : verbRest ('G' :: "ET".data) t.data with
  | some u => exact key _ _ _ h1 (by decide)
  | none =>
  rw [h1] at h
  cases h2 : verbRest ('P' :: "OST".data) t.data with
  | some u => exact key _ _ _ h2 (by decide)
  | none =>
  rw [h2] at h
  cases h3 : verbRest ('P' :: "UT".data) t.data with
  | some u => exact key _ _ _ h3 (by decide)
  | none =>
  rw [h3] at h
  cases h4 : verbRest ('D' :: "ELETE".data) t.data with
  | some u => exact key _ _ _ h4 (by decide)
  | none =>
  rw [h4] at h
  cases h5 : verbRest ('P' :: "ATCH".data) t.data with
  | some u => exact key _ _ _ h5 (by decide)
  | none =>
  rw [h5] at h
  exact absurd h (by simp)

theorem ne_empty_of_hash {t : String} (h : strStarts t "#" = true) : t ≠ "" := by
  intro he
  rw [he] at h
  exact absurd h (by decide)

theorem push_none {s : ParserState} (h : s.current = none) : pushCurrentState s = s := by
  unfold pushCurrentState
  rw [h]

theorem finishBody_requests (s : ParserState) : (finishBodyState s).requests = s.requests := by
  unfold finishBodyState
  cases s.current
  · rfl
  · dsimp only
    split <;> rfl

theorem finishBody_current_isSome {s : ParserState} {c : HurlRequest}
    (h : s.current = some c) : (finishBodyState s).current.isSome = true := by
  unfold finishBodyState
  rw [h]
  dsimp only
  split <;> simp [h]

theorem step_blank {s : ParserState} {line : String}
    (hb : strTrim line = "") (hs : s.state ≠ .BODY) : step s line = .ok s := by
  unfold step
  dsimp only
  rw [if_pos hb, if_neg hs]

theorem step_comment {s : ParserState} {line : String}
    (h : strStarts (strTrim line) "#" = true) (hbody : s.state ≠ .BODY) :
    step s line = .ok { pushCurrentState s with
      current := some (emptyRequest (some (commentText (strTrim line)))), state := .IDLE } := by
  unfold step
  dsimp only
  rw [if_neg (ne_empty_of_hash h), if_neg hbody, if_pos h]

theorem step_method_none {s : ParserState} {line : String} {mu : String × String}
    (h : methodMatch (strTrim line) = some mu)
    (hcur : s.current = none) (hbody : s.state ≠ .BODY) :
    step s line = .ok { s with
      current := some { emptyRequest none with method := some mu.1, url := some mu.2 },
      state := .HEADERS } := by
  obtain ⟨hne, hsh⟩ := methodMatch_facts h
  unfold step
  dsimp only
  rw [if_neg hne, if_neg hbody, if_neg (by simp [hsh]), h, hcur]

theorem step_method_fresh {s : ParserState} {line : String} {mu : String × String}
    {c : HurlRequest} (h : methodMatch (strTrim line) = some mu)
    (hcur : s.current = some c) (hm : c.method = none) (hbody : s.state ≠ .BODY) :
    step s line = .ok { s with
      current := some { c with method := some mu.1, url := some mu.2 },
      state := .HEADERS } := by
  obtain ⟨hne, hsh⟩ := methodMatch_facts h
  unfold step
  dsimp only
  rw [if_neg hne, if_neg hbody, if_neg (by simp [hsh]), h]
  simp [hcur, hm]

theorem step_method_push {s : ParserState} {line : String} {mu : String × String}
    {c : HurlRequest} {m : String} (h : methodMatch (strTrim line) = some mu)
    (hcur : s.current = some c) (hm : c.method = some m) (hbody : s.state ≠ .BODY) :
    step s line = .ok { pushCurrentState s with
      current := some { emptyRequest none with method := some mu.1, url := some mu.2 },
      state := .HEADERS } := by
  obtain ⟨hne, hsh⟩ := methodMatch_facts h
  unfold step
  dsimp only
  rw [if_neg hne, if_neg hbody, if_neg (by simp [hsh]), h]
  simp [hcur, hm]

/-- C6: while in body mode with an open record, a non-blank line is always
appended verbatim, and the body is finalized exactly when the cumulative
brace count (previous depth plus the net `{`/`}` tally of the trimmed line)
returns to zero — not merely when a closing brace is seen. -/
theorem c6_body_brace_tracking (s : ParserState) (c : HurlRequest) (line : String)
    (hs : s.state = .BODY) (hc : s.current = some c) (hl : strTrim line ≠ "") :
    step s line =
      (if s.braceDepth + braceTally (strTrim line) = 0 then
        .ok { requests := s.requests,
              current := some { c with body := some (joinLines (s.bodyLines ++ [line])) },
              state := .IDLE, bodyLines := [], braceDepth := 0 }
       else
        .ok { s with bodyLines := s.bodyLines ++ [line],
                     braceDepth := s.braceDepth + braceTally (strTrim line) }) := by
  unfold step
  dsimp only
  rw [if_neg hl, if_pos hs]
  by_cases hd : s.braceDepth + braceTally (strTrim line) = 0
  · rw [if_pos hd, if_pos hd]
    unfold finishBodyState
    dsimp only
    rw [hc]
    dsimp only
    rw [if_neg (by simp)]
  · rw [if_neg hd, if_neg hd]

/-- Witness for C6: at depth 2 the line `"b": 1 }` has net tally `-1`, so
the parser stays in body mode instead of closing at the first `}`. -/
theorem c6_body_brace_tracking_witness :
    step ⟨[], some (emptyRequest (some "T")), .BODY, [braceStr, "  \"a\": \x7b"], 2⟩
        "  \"b\": 1 \x7d" =
      (if (2 : Int) + braceTally (strTrim "  \"b\": 1 \x7d") = 0 then
        .ok { requests := [],
              current := some { emptyRequest (some "T") with
                body := some (joinLines ([braceStr, "  \"a\": \x7b"] ++ ["  \"b\": 1 \x7d"])) },
              state := .IDLE, bodyLines := [], braceDepth := 0 }
       else
        .ok { requests := [], current := some (emptyRequest (some "T")), state := .BODY,
              bodyLines := [braceStr, "  \"a\": \x7b"] ++ ["  \"b\": 1 \x7d"],
              braceDepth := (2 : Int) + braceTally (strTrim "  \"b\": 1 \x7d") }) :=
  c6_body_brace_tracking _ _ _ rfl rfl (by decide)

/-- C7: two method+URL lines with no intervening comment or blank line
produce two separate records in order: the first keeps its comment tag and
the second is untagged. -/
theorem c7_back_to_back (cl l1 l2 : String) (mu1 mu2 : String × String)
    (hc : strStarts (strTrim cl) "#" = true)
    (h1 : methodMatch (strTrim l1) = some mu1)
    (h2 : methodMatch (strTrim l2) = some mu2) :
    parseLines [cl, l1, l2] = .ok
      [ ⟨some (commentText (strTrim cl)), some mu1.1, some mu1.2, [], none, none, [], []⟩,
        ⟨none, some mu2.1, some mu2.2, [], none, none, [], []⟩ ] := by
  have e1 : step initState cl =
      .ok ⟨[], some (emptyRequest (some (commentText (strTrim cl)))), .IDLE, [], 0⟩ := by
    rw [step_comment hc (by simp [initState]), (push_none rfl : pushCurrentState initState = initState)]
    rfl
  have e2 : step (⟨[], some (emptyRequest (some (commentText (strTrim cl)))), .IDLE, [], 0⟩ :
        ParserState) l1 =
      .ok ⟨[], some ⟨some (commentText (strTrim cl)), some mu1.1, some mu1.2, [], none, none, [], []⟩,
        .HEADERS, [], 0⟩ := by
    rw [step_method_fresh h1 rfl rfl (by simp)]
    rfl
  have e3 : step (⟨[], some ⟨some (commentText (strTrim cl)), some mu1.1, some mu1.2, [],
        none, none, [], []⟩, .HEADERS, [], 0⟩ : ParserState) l2 =
      .ok ⟨[⟨some (commentText (strTrim cl)), some mu1.1, some mu1.2, [], none, none, [], []⟩],
        some ⟨none, some mu2.1, some mu2.2, [], none, none, [], []⟩, .HEADERS, [], 0⟩ := by
    rw [step_method_push h2 rfl rfl (by simp)]
    rfl
  unfold parseLines
  unfold runLines
  rw [e1]
  dsimp only
  unfold runLines
  rw [e2]
  dsimp only
  unfold runLines
  rw [e3]
  dsimp only
  unfold runLines
  rfl

/-- Witness for C7 on a concrete comment line and two concrete back-to-back
method lines. -/
theorem c7_back_to_back_witness :
    parseLines ["# Login", "POST http://h/users/login", "GET http://h/user"] = .ok
      [ ⟨some (commentText (strTrim "# Login")), some ("POST", "http://h/users/login").1,
          some ("POST", "http://h/users/login").2, [], none, none, [], []⟩,
        ⟨none, some ("GET", "http://h/user").1, some ("GET", "http://h/user").2,
          [], none, none, [], []⟩ ] :=
  c7_back_to_back "# Login" "POST http://h/users/login" "GET http://h/user"
    ("POST", "http://h/users/login") ("GET", "http://h/user")
    (by decide) (by decide) (by decide)

theorem stepTail_requests {s : ParserState} {line t : String} {s' : ParserState}
    (h : stepTail s line t = .ok s') : s'.requests = s.requests := by
  unfold stepTail at h
  split at h
  · exact congrArg ParserState.requests (Except.ok.inj h) ▸ rfl
  · split at h
    · split at h
      · exact absurd h (by simp)
      · cases Except.ok.inj h; rfl
    · split at h
      · cases Except.ok.inj h; rfl
      · split at h
        · cases Except.ok.inj h; rfl
        · split at h
          · split at h
            · split at h
              · exact absurd h (by simp)
              · cases Except.ok.inj h; rfl
            · cases Except.ok.inj h; rfl
          · split at h
            · split at h
              · exact absurd h (by simp)
              · cases Except.ok.inj h; rfl
            · cases Except.ok.inj h; rfl

theorem step_requests_cases {s : ParserState} {line : String} {s' : ParserState}
    (h : step s line = .ok s') :
    s'.requests = s.requests ∨ s'.requests = (pushCurrentState s).requests := by
  unfold step at h
  dsimp only at h
  by_cases hb : strTrim line = ""
  · rw [if_pos hb] at h
    split at h
    · cases Except.ok.inj h; left; rfl
    · cases Except.ok.inj h; left; rfl
  · rw [if_neg hb] at h
    by_cases hbody : s.state = .BODY
    · rw [if_pos hbody] at h
      split at h
      · cases Except.ok.inj h
        left
        exact (finishBody_requests _).trans rfl
      · cases Except.ok.inj h; left; rfl
    · rw [if_neg hbody] at h
      by_cases hsh : strStarts (strTrim line) "#" = true
      · rw [if_pos hsh] at h
        cases Except.ok.inj h
        right
        rfl
      · rw [if_neg hsh] at h
        cases hmm : methodMatch (strTrim line) with
        | some mu =>
          rw [hmm] at h
          dsimp only at h
          cases hcur : s.current with
          | none =>
            rw [hcur] at h
            dsimp only at h
            cases Except.ok.inj h
            left
            rfl
          | some c =>
            rw [hcur] at h
            dsimp only at h
            by_cases hm : c.method.isSome = true
            · rw [if_pos hm] at h
              dsimp only at h
              cases Except.ok.inj h
              right
              rfl
            · rw [if_neg hm] at h
              rw [hcur] at h
              dsimp only at h
              cases Except.ok.inj h
              left
              rfl
        | none =>
          rw [hmm] at h
          dsimp only at h
          by_cases hH : s.state = .HEADERS
          · rw [if_pos hH] at h
            cases hhm : headerMatch (strTrim line) with
            | some kv =>
              rw [hhm] at h
              dsimp only at h
              cases hcur : s.current with
              | none =>
                rw [hcur] at h
                exact absurd h (by simp)
              | some c =>
                rw [hcur] at h
                dsimp only at h
                cases Except.ok.inj h
                left
                rfl
            | none =>
              rw [hhm] at h
              dsimp only at h
              left
              exact stepTail_requests h
          · rw [if_neg hH] at h
            left
            exact stepTail_requests h

theorem pushCurrent_methods {s : ParserState}
    (hI : ∀ r ∈ s.requests, r.method.isSome = true) :
    ∀ r ∈ (pushCurrentState s).requests, r.method.isSome = true := by
  unfold pushCurrentState
  cases hcur : s.current with
  | none => simpa using hI
  | some c0 =>
    dsimp only
    cases hfc : (finishBodyState s).current with
    | none =>
      simpa [finishBody_requests s] using hI
    | some c =>
      dsimp only
      by_cases hm : c.method.isSome = true
      · rw [if_pos hm]
        intro r hr
        rw [finishBody_requests s] at hr
        rcases List.mem_append.mp hr with h1 | h1
        · exact hI r h1
        · rw [List.mem_singleton.mp h1]
          exact hm
      · rw [if_neg hm]
        simpa [finishBody_requests s] using hI

theorem step_methods {s : ParserState} {line : String} {s' : ParserState}
    (h : step s line = .ok s')
    (hI : ∀ r ∈ s.requests, r.method.isSome = true) :
    ∀ r ∈ s'.requests, r.method.isSome = true := by
  rcases step_requests_cases h with h' | h' <;> rw [h']
  · exact hI
  · exact pushCurrent_methods hI

theorem runLines_methods : ∀ (lines : List String) (s st : ParserState),
    runLines s lines = .ok st → (∀ r ∈ s.requests, r.method.isSome = true) →
    ∀ r ∈ st.requests, r.method.isSome = true := by
  intro lines
  induction lines with
  | nil =>
    intro s st h hI
    cases Except.ok.inj h
    exact hI
  | cons l ls ih =>
    intro s st h hI
    unfold runLines at h
    cases hs : step s l with
    | error e => rw [hs] at h; exact absurd h (by simp)
    | ok s2 =>
      rw [hs] at h
      exact ih s2 st h (step_methods hs hI)

/-- C8: every record the parser emits carries a method (records that never
acquired one are silently discarded at finalization, not errors), and a
source block that parses to zero records contributes zero generated files. -/
theorem c8_record_discard (lines : List String) (rs : List HurlRequest) (folder : String)
    (h : parseLines lines = .ok rs) :
    (∀ r ∈ rs, r.method.isSome = true) ∧ (rs = [] → perFileWrites folder rs = []) := by
  constructor
  · unfold parseLines at h
    cases hr : runLines initState lines with
    | error e => rw [hr] at h; exact absurd h (by simp)
    | ok st =>
      rw [hr] at h
      cases Except.ok.inj h
      exact pushCurrent_methods (runLines_methods lines initState st hr (by simp [initState]))
  · rintro rfl
    rfl

/-- Witness for C8 on a block with a comment, a header-like line and a JSON
body but no method line: the parse yields zero records and zero files. -/
theorem c8_record_discard_witness :
    (∀ r ∈ ([] : List HurlRequest), r.method.isSome = true) ∧
    (([] : List HurlRequest) = [] → perFileWrites "misc" [] = []) :=
  c8_record_discard
    ["# Just a comment", "Authorization: Token abc", braceStr, "  \"a\": 1", String.mk [braceR]]
    [] "misc" rfl

theorem stepTail_some {s : ParserState} {line t : String} {c : HurlRequest}
    (hc : s.current = some c) :
    ∃ s', stepTail s line t = .ok s' ∧ s'.current.isSome = true := by
  unfold stepTail
  split
  · exact ⟨_, rfl, by simp [hc]⟩
  · split
    · split
      · rename_i hn hcur
        rw [hcur] at hc
        exact absurd hc (by simp)
      · exact ⟨_, rfl, by simp⟩
    · split
      · exact ⟨_, rfl, by simp [hc]⟩
      · split
        · exact ⟨_, rfl, by simp [hc]⟩
        · split
          · split
            · split
              · rename_i hcm hcur
                rw [hcur] at hc
                exact absurd hc (by simp)
              · exact ⟨_, rfl, by simp⟩
            · exact ⟨_, rfl, by simp [hc]⟩
          · split
            · split
              · rename_i hst hcur
                rw [hcur] at hc
                exact absurd hc (by simp)
              · exact ⟨_, rfl, by simp⟩
            · exact ⟨_, rfl, by simp [hc]⟩

theorem step_some {s : ParserState} {line : String} {c : HurlRequest}
    (hc : s.current = some c) :
    ∃ s', step s line = .ok s' ∧ s'.current.isSome = true := by
  unfold step
  dsimp only
  by_cases hb : strTrim line = ""
  · rw [if_pos hb]
    split
    · exact ⟨_, rfl, by simp [hc]⟩
    · exact ⟨_, rfl, by simp [hc]⟩
  · rw [if_neg hb]
    by_cases hbody : s.state = .BODY
    · rw [if_pos hbody]
      split
      · refine ⟨_, rfl, ?_⟩
        have : ({ s with bodyLines := s.bodyLines ++ [line], braceDepth := s.braceDepth + braceTally (strTrim line) } : ParserState).current = some c := hc
        simpa using finishBody_current_isSome this
      · exact ⟨_, rfl, by simp [hc]⟩
    · rw [if_neg hbody]
      by_cases hsh : strStarts (strTrim line) "#" = true
      · rw [if_pos hsh]
        exact ⟨_, rfl, by simp⟩
      · rw [if_neg hsh]
        cases hmm : methodMatch (strTrim line) with
        | some mu =>
          dsimp only
          rw [hc]
          dsimp only
          by_cases hm : c.method.isSome = true
          · rw [if_pos hm]
            exact ⟨_, rfl, by simp⟩
          · rw [if_neg hm]
            rw [hc]
            dsimp only
            exact ⟨_, rfl, by simp⟩
        | none =>
          dsimp only
          by_cases hH : s.state = .HEADERS
          · rw [if_pos hH]
            cases hhm : headerMatch (strTrim line) with
            | some kv =>
              dsimp only
              rw [hc]
              dsimp only
              exact ⟨_, rfl, by simp⟩
            | none =>
              dsimp only
              exact stepTail_some hc
          · rw [if_neg hH]
            exact stepTail_some hc

theorem runLines_ok_of_some : ∀ (lines : List String) (s : ParserState) (c : HurlRequest),
    s.current = some c → ∃ st, runLines s lines = .ok st := by
  intro lines
  induction lines with
  | nil => exact fun s c _ => ⟨s, rfl⟩
  | cons l ls ih =>
    intro s c hc
    obtain ⟨s2, h2, hsome2⟩ := @step_some s l c hc
    obtain ⟨c2, hc2⟩ := Option.isSome_iff_exists.mp hsome2
    obtain ⟨st, hst⟩ := ih s2 c2 hc2
    refine ⟨st, ?_⟩
    unfold runLines
    rw [h2]
    exact hst

/-- C1 (amended): the parser is total on every file whose first non-blank
line is a comment line or a method line — from then on a record is always
open, so every classification (status line, captures, asserts, headers,
bodies, ignored lines) succeeds and the parse returns an ordered record
list; the unrestricted claim fails when a status line or assert content
appears before any record is open. -/
theorem c1_parser_total_headOk (lines : List String) (h : headOk lines = true) :
    exceptOk (parseLines lines) = true := by
  have main : ∀ ls : List String, headOk ls = true →
      ∃ st, runLines initState ls = .ok st := by
    intro ls
    induction ls with
    | nil => exact fun _ => ⟨initState, rfl⟩
    | cons l ls ih =>
      intro hh
      unfold headOk at hh
      by_cases hb : strTrim l = ""
      · rw [if_pos hb] at hh
        obtain ⟨st, hst⟩ := ih hh
        refine ⟨st, ?_⟩
        unfold runLines
        rw [step_blank hb (by simp [initState])]
        exact hst
      · rw [if_neg hb] at hh
        rcases (Bool.or_eq_true _ _).mp hh with hcom | hmet
        · have e1 := @step_comment initState l hcom (by simp [initState])
          obtain ⟨st, hst⟩ := runLines_ok_of_some ls
            { pushCurrentState initState with
              current := some (emptyRequest (some (commentText (strTrim l)))), state := .IDLE }
            (emptyRequest (some (commentText (strTrim l)))) rfl
          refine ⟨st, ?_⟩
          unfold runLines
          rw [e1]
          exact hst
        · obtain ⟨mu, hmu⟩ := Option.isSome_iff_exists.mp hmet
          have e1 := @step_method_none initState l mu hmu rfl (by simp [initState])
          obtain ⟨st, hst⟩ := runLines_ok_of_some ls
            { initState with
              current := some { emptyRequest none with method := some mu.1, url := some mu.2 },
              state := .HEADERS }
            { emptyRequest none with method := some mu.1, url := some mu.2 } rfl
          refine ⟨st, ?_⟩
          unfold runLines
          rw [e1]
          exact hst
  obtain ⟨st, hst⟩ := main lines h
  unfold parseLines
  rw [hst]
  rfl

/-- Witness for C1 (amended) on a small well-formed file. -/
theorem c1_parser_total_headOk_witness :
    exceptOk (parseLines ["", "# Ping", "GET http://h/api/ping", "HTTP 200"]) = true :=
  c1_parser_total_headOk ["", "# Ping", "GET http://h/api/ping", "HTTP 200"] (by decide)

end HurlBruno
